import Mathlib

/-!
Verification development for the `playwright-gatekeeper` orchestration core
(`src/orchestration/index.ts`, `src/orchestration/helpers.ts`).

The coordination state is a JSON file holding `{results, dependencies}`,
guarded by a sentinel-file lock.  We embed the state as association lists
(mirroring JavaScript object insertion-order semantics: assignment to an
existing key overwrites in place, assignment to a fresh key appends), the
serialized file as a small JSON syntax tree, and the recursive dependency
resolver as a fuel-indexed structural recursion whose fuel we prove
sufficient (this is the termination argument for the source's recursion).
-/

namespace Gatekeeper

/-- `GatekeeperResult` from `index.ts`: `{passed: boolean, error?: string,
timestamp: number}`.  Timestamps come from `Date.now()`, embedded as `Nat`. -/
structure GatekeeperResult where
  passed : Bool
  error : Option String
  timestamp : Nat
deriving Repr, DecidableEq

/-- `StateFile` from `index.ts`: `{results: Record<string, GatekeeperResult>,
dependencies: Record<string, string[]>}`, embedded as association lists in
object insertion order. -/
structure StateFile where
  results : List (String × GatekeeperResult)
  dependencies : List (String × List String)
deriving Repr, DecidableEq

/-- `FailedDependencyInfo` from `index.ts`: `{key, error?, chain}`. -/
structure FailedDependencyInfo where
  key : String
  error : Option String
  chain : List String
deriving Repr, DecidableEq

/-- JavaScript property read `obj[k]`: the value stored under the first
(and, for objects, only) occurrence of the key, or `none` for `undefined`. -/
def getKey {β : Type} : List (String × β) → String → Option β
  | [], _ => none
  | (k', v) :: rest, k => if k' = k then some v else getKey rest k

/-- JavaScript property write `obj[k] = v`: overwrite in place when the key
exists, append otherwise. -/
def setKey {β : Type} : List (String × β) → String → β → List (String × β)
  | [], k, v => [(k, v)]
  | (k', v') :: rest, k, v =>
    if k' = k then (k, v) :: rest else (k', v') :: setKey rest k v

/-- The empty snapshot `{results: {}, dependencies: {}}`. -/
def emptyState : StateFile := ⟨[], []⟩

/-- The guard `result && !result.passed` of `getFailedDependency`. -/
def resultFailed (state : StateFile) (key : String) : Bool :=
  match getKey state.results key with
  | some r => !r.passed
  | none => false

/-- The `error` field of the recorded result for `key` (the value
`result.error` read at the point where `getFailedDependency` returns). -/
def failedError (state : StateFile) (key : String) : Option String :=
  (getKey state.results key).bind (fun r => r.error)

/-- The body of `GatekeeperState.getFailedDependency(keys, visited)`.  The
source recursion mutates one `visited` set shared across the traversal; we
thread it explicitly and return it alongside the result.  `fuel` bounds the
recursion depth: every recursive call of the source corresponds to a call
here with one unit less fuel, and `gfdFuel` below is proved sufficient, so
`none` (fuel exhausted) never occurs at the fuel `getFailedDependency`
supplies. -/
def gfdAux (state : StateFile) :
    Nat → List String → List String →
    Option (Option FailedDependencyInfo × List String)
  | 0, _, _ => none
  | _ + 1, [], visited => some (none, visited)
  | fuel + 1, key :: rest, visited =>
    if key ∈ visited then
      gfdAux state fuel rest visited
    else
      if resultFailed state key then
        some (some ⟨key, failedError state key, [key]⟩, key :: visited)
      else
        let transitiveDeps := (getKey state.dependencies key).getD []
        if transitiveDeps.isEmpty then
          gfdAux state fuel rest (key :: visited)
        else
          match gfdAux state fuel transitiveDeps (key :: visited) with
          | none => none
          | some (some f, v2) => some (some ⟨f.key, f.error, key :: f.chain⟩, v2)
          | some (none, v2) => gfdAux state fuel rest v2

/-- Weight of the dependency entries whose key is not yet visited: an upper
bound on the recursion budget still needed (one dive plus one list step per
declared dependency, for each unvisited entry). -/
def pendingWeight : List (String × List String) → List String → Nat
  | [], _ => 0
  | (k, ds) :: rest, visited =>
    (if k ∈ visited then 0 else ds.length + 1) + pendingWeight rest visited

/-- Sufficient fuel for `gfdAux` on `keys` starting from an empty visited
set. -/
def gfdFuel (state : StateFile) (keys : List String) : Nat :=
  keys.length + pendingWeight state.dependencies [] + 1

/-- `GatekeeperState.getFailedDependency(keys)` with the default fresh
visited set.  The fuel is sufficient (`gfdAux_ne_none` below), so the
`none` fallback branch is unreachable. -/
def getFailedDependency (state : StateFile) (keys : List String) :
    Option FailedDependencyInfo :=
  match gfdAux state (gfdFuel state keys) keys [] with
  | some (r, _) => r
  | none => none

/-- `GatekeeperState.registerGatekeeper(key, dependencies)`: the in-memory
mutation applied between `readState` and `writeState` — dependency edges are
stored only when the list is non-empty, and `results` is never touched. -/
def registerGatekeeper (state : StateFile) (key : String)
    (dependencies : List String) : StateFile :=
  if dependencies.length > 0 then
    { state with dependencies := setKey state.dependencies key dependencies }
  else
    state

/-- `GatekeeperState.setResult(key, passed, error)`: the in-memory mutation —
store `{passed, error, timestamp: Date.now()}` under `key`.  `now` stands
for the `Date.now()` reading. -/
def setResult (state : StateFile) (key : String) (passed : Bool)
    (error : Option String) (now : Nat) : StateFile :=
  { state with results := setKey state.results key ⟨passed, error, now⟩ }

/-- `GatekeeperState.getResult(key)`. -/
def getResult (state : StateFile) (key : String) : Option GatekeeperResult :=
  getKey state.results key

/-- `GatekeeperState.isRegistered(key)`: `key in results || key in
dependencies`. -/
def isRegistered (state : StateFile) (key : String) : Bool :=
  (getKey state.results key).isSome || (getKey state.dependencies key).isSome

/-- `GatekeeperState.getDependencies(key)`: `dependencies[key] || []`. -/
def getDependencies (state : StateFile) (key : String) : List String :=
  (getKey state.dependencies key).getD []

/-- `GatekeeperState.getAllResults()`: a copy of the `results` map. -/
def getAllResults (state : StateFile) : List (String × GatekeeperResult) :=
  state.results

/-! ## Serialization and the durable file

`writeState` stores `JSON.stringify(state, null, 2)`; `readState` runs
`JSON.parse` and uses the value as a `StateFile` (an unchecked cast in the
source).  We embed the serialized text by its JSON syntax tree: `encode*`
mirrors what `JSON.stringify` emits (an `error` of `undefined` is omitted),
and `decode*` mirrors the field accesses the rest of the code performs on
the parsed value, with the defaults only reachable on malformed input that
the unchecked cast would also let through. -/

/-- JSON values, as produced by `JSON.stringify` / consumed by
`JSON.parse`.  Numbers occurring in the state are `Date.now()` timestamps,
embedded as `Nat`. -/
inductive Json where
  | jnull
  | jbool (b : Bool)
  | jnum (n : Nat)
  | jstr (s : String)
  | jarr (elems : List Json)
  | jobj (fields : List (String × Json))
deriving Repr

/-- Serialization of one `GatekeeperResult`: `JSON.stringify` omits the
`error` property when it is `undefined`. -/
def encodeResult (r : GatekeeperResult) : Json :=
  .jobj ([("passed", .jbool r.passed)]
    ++ (match r.error with
        | some e => [("error", .jstr e)]
        | none => [])
    ++ [("timestamp", .jnum r.timestamp)])

/-- Reading a parsed result object's fields (`passed`, `error`,
`timestamp`), as the unchecked `as StateFile` cast lets the rest of the
code do. -/
def decodeResult (j : Json) : GatekeeperResult :=
  match j with
  | .jobj fields =>
    { passed := match getKey fields "passed" with
        | some (.jbool b) => b
        | _ => false
      error := match getKey fields "error" with
        | some (.jstr e) => some e
        | _ => none
      timestamp := match getKey fields "timestamp" with
        | some (.jnum n) => n
        | _ => 0 }
  | _ => ⟨false, none, 0⟩

/-- Serialization of a dependency list. -/
def encodeDeps (ds : List String) : Json :=
  .jarr (ds.map (fun d => .jstr d))

/-- Reading a parsed dependency array. -/
def decodeDeps (j : Json) : List String :=
  match j with
  | .jarr elems => elems.map (fun e => match e with | .jstr s => s | _ => "")
  | _ => []

/-- Serialization of the whole snapshot, in object insertion order. -/
def encodeStateFile (s : StateFile) : Json :=
  .jobj [("results", .jobj (s.results.map (fun p => (p.1, encodeResult p.2)))),
         ("dependencies",
          .jobj (s.dependencies.map (fun p => (p.1, encodeDeps p.2))))]

/-- Reading a parsed snapshot object. -/
def decodeStateFile (j : Json) : StateFile :=
  match j with
  | .jobj fields =>
    { results := match getKey fields "results" with
        | some (.jobj rs) => rs.map (fun p => (p.1, decodeResult p.2))
        | _ => []
      dependencies := match getKey fields "dependencies" with
        | some (.jobj ds) => ds.map (fun p => (p.1, decodeDeps p.2))
        | _ => [] }
  | _ => emptyState

/-- The durable state file as observed by `readState`: absent
(`fs.existsSync` false), present but unparsable (`JSON.parse` throws,
caught by the surrounding `try`), or present with parsed content. -/
inductive FileState where
  | absent
  | corrupt
  | content (j : Json)

/-- `GatekeeperState.readState()`: absent and unparsable files both yield
the empty snapshot; otherwise the parsed value is used as the snapshot. -/
def readState : FileState → StateFile
  | .absent => emptyState
  | .corrupt => emptyState
  | .content j => decodeStateFile j

/-- `GatekeeperState.writeState(state)` on the successful path: serialize
to a temp file and atomically rename it over the canonical path, leaving
the file holding exactly the serialized snapshot. -/
def writeState (s : StateFile) : FileState :=
  .content (encodeStateFile s)

/-! ## Lock and lock-guarded operations -/

/-- `GatekeeperState.acquireLock(timeoutMs)`: repeatedly attempt to create
the sentinel with flag `wx` until the timeout elapses.  `attempts` records,
for each exclusive-create attempt made inside the timeout window, whether
it succeeded (`true`) or threw because the sentinel existed (`false`);
acquisition succeeds exactly when some attempt succeeds. -/
def acquireLock (attempts : List Bool) : Bool :=
  attempts.any (fun a => a)

/-- `GatekeeperState.withLock(fn)`: run `fn` under the lock, or throw
`Error('Failed to acquire lock for gatekeeper state')` without running it.
The pair returned is (thrown error message if any, resulting file state);
on the throwing path the file is untouched because the read-modify-write
never starts. -/
def withLock (attempts : List Bool) (fn : FileState → FileState)
    (fs : FileState) : Option String × FileState :=
  if acquireLock attempts then (none, fn fs)
  else (some "Failed to acquire lock for gatekeeper state", fs)

/-- `registerGatekeeper` as the full lock-guarded read-modify-write on the
durable file. -/
def registerGatekeeperOp (attempts : List Bool) (fs : FileState)
    (key : String) (dependencies : List String) : Option String × FileState :=
  withLock attempts
    (fun f => writeState (registerGatekeeper (readState f) key dependencies)) fs

/-- `setResult` as the full lock-guarded read-modify-write on the durable
file. -/
def setResultOp (attempts : List Bool) (fs : FileState) (key : String)
    (passed : Bool) (error : Option String) (now : Nat) :
    Option String × FileState :=
  withLock attempts
    (fun f => writeState (setResult (readState f) key passed error now)) fs

/-! ## Wait coordinator

`waitForResult` polls `getResult` every `pollIntervalMs` until the result
appears or `timeoutMs` elapses.  We index time by poll ticks: `store t` is
the durable file as read at the `t`-th poll, and `polls` is the number of
polls the timeout window admits. -/

/-- `GatekeeperState.getResult(key)` against the file observed at tick
`t`. -/
def getResultAt (store : Nat → FileState) (t : Nat) (key : String) :
    Option GatekeeperResult :=
  getKey (readState (store t)).results key

/-- `GatekeeperState.waitForResult(key, timeoutMs, pollIntervalMs)`: poll
from tick `t` with `polls` remaining polls; `none` models the `undefined`
returned on timeout. -/
def waitForResult (store : Nat → FileState) (key : String) :
    Nat → Nat → Option GatekeeperResult
  | _, 0 => none
  | t, polls + 1 =>
    match getResultAt store t key with
    | some r => some r
    | none => waitForResult store key (t + 1) polls

/-- `GatekeeperState.waitForResults(keys, timeoutMs, pollIntervalMs)`:
await every key (all within the same timeout window) and collect a map
entry per key; `Map.set` semantics are those of `setKey`. -/
def waitForResults (store : Nat → FileState) (keys : List String)
    (polls : Nat) : List (String × Option GatekeeperResult) :=
  keys.foldl (fun acc key => setKey acc key (waitForResult store key 0 polls)) []

/-! ## Facade (`helpers.ts`) -/

/-- What `markAs` did to the calling test: skipped it via `test.skip`
(with the given message) before registering, or registered it as a
gatekeeper. -/
inductive MarkAsOutcome where
  | skipped (message : String)
  | registered
deriving Repr, DecidableEq

/-- `formatDependencyChain(chain)` from `helpers.ts`. -/
def formatDependencyChain (chain : List String) : String :=
  if chain.length ≤ 1 then ""
  else " (chain: " ++ String.intercalate " → " chain ++ ")"

/-- `markAs(key, dependencies)` from `helpers.ts`, over the snapshot the
store currently holds.  Returns the outcome, the snapshot after the call,
and the module-level `currentGatekeeperKey` after the call (input
`curKey`).  On the skip path the function returns before registering and
before taking ownership, so both are unchanged. -/
def markAs (state : StateFile) (curKey : Option String) (key : String)
    (dependencies : List String) :
    MarkAsOutcome × StateFile × Option String :=
  if dependencies.length > 0 then
    match getFailedDependency state dependencies with
    | some failed =>
      (.skipped ("Skipped: dependency '" ++ failed.key ++ "' failed"
          ++ formatDependencyChain failed.chain),
       state, curKey)
    | none => (.registered, registerGatekeeper state key dependencies, some key)
  else
    (.registered, registerGatekeeper state key dependencies, some key)

/-! ## Sequentialized concurrent runs

The lock linearizes the read-modify-write cycles of concurrent `setResult`
calls; a run of N processes therefore commits as some sequence of atomic
`setResult` applications.  `ops` lists the committed calls in commit
order: `(key, passed, error, timestamp)`. -/

/-- Apply a sequence of linearized `setResult` commits. -/
def runSetResults (state : StateFile)
    (ops : List (String × Bool × Option String × Nat)) : StateFile :=
  ops.foldl (fun st op => setResult st op.1 op.2.1 op.2.2.1 op.2.2.2) state

/-! ## Association-list lemmas -/

theorem getKey_setKey_self {β : Type} (l : List (String × β)) (k : String)
    (v : β) : getKey (setKey l k v) k = some v := by
  induction l with
  | nil => simp [setKey, getKey]
  | cons p rest ih =>
    obtain ⟨k', v'⟩ := p
    by_cases h : k' = k
    · simp [setKey, getKey, h]
    · simp [setKey, getKey, h, ih]

theorem getKey_setKey_ne {β : Type} (l : List (String × β)) {k k' : String}
    (v : β) (h : k' ≠ k) : getKey (setKey l k v) k' = getKey l k' := by
  have hne : k ≠ k' := fun he => h he.symm
  induction l with
  | nil => simp [setKey, getKey, hne]
  | cons p rest ih =>
    obtain ⟨k0, v0⟩ := p
    by_cases h0 : k0 = k
    · subst h0
      simp [setKey, getKey, hne]
    · simp [setKey, getKey, h0, ih]

theorem setKey_length_of_getKey_none {β : Type} (l : List (String × β))
    {k : String} (v : β) (h : getKey l k = none) :
    (setKey l k v).length = l.length + 1 := by
  induction l with
  | nil => simp [setKey]
  | cons p rest ih =>
    obtain ⟨k0, v0⟩ := p
    simp only [getKey] at h
    by_cases h0 : k0 = k
    · simp [h0] at h
    · simp only [setKey, if_neg h0, List.length_cons]
      rw [ih (by simpa [h0] using h)]

theorem mem_setKey {β : Type} {k : String} {v : β} {q : String × β} :
    ∀ {l : List (String × β)}, q ∈ setKey l k v → q ∈ l ∨ q = (k, v) := by
  intro l
  induction l with
  | nil =>
    intro hq
    right
    simpa [setKey] using hq
  | cons r rs ih =>
    obtain ⟨rk, rv⟩ := r
    intro hq
    simp only [setKey] at hq
    by_cases hr : rk = k
    · rw [if_pos hr] at hq
      rcases List.mem_cons.mp hq with hq | hq
      · right; exact hq
      · left; exact List.mem_cons_of_mem _ hq
    · rw [if_neg hr] at hq
      rcases List.mem_cons.mp hq with hq | hq
      · left; exact hq ▸ List.mem_cons_self _ _
      · rcases ih hq with hh | hh
        · left; exact List.mem_cons_of_mem _ hh
        · right; exact hh

theorem setKey_keys_nodup {β : Type} (l : List (String × β)) (k : String)
    (v : β) (h : (l.map Prod.fst).Nodup) :
    ((setKey l k v).map Prod.fst).Nodup := by
  induction l with
  | nil => simp [setKey]
  | cons p rest ih =>
    obtain ⟨k0, v0⟩ := p
    simp only [List.map_cons, List.nodup_cons] at h
    by_cases h0 : k0 = k
    · subst h0
      simpa [setKey, List.nodup_cons] using h
    · have hmem : k0 ∉ ((setKey rest k v).map Prod.fst) := by
        intro hc
        rcases List.mem_map.mp hc with ⟨q, hq, hq1⟩
        rcases mem_setKey hq with hin | hkv
        · exact h.1 (hq1 ▸ List.mem_map_of_mem Prod.fst hin)
        · exact h0 (by rw [hkv] at hq1; exact hq1.symm)
      simp only [setKey, if_neg h0, List.map_cons, List.nodup_cons]
      exact ⟨hmem, ih h.2⟩

/-! ## Serialization round trip -/

theorem decodeResult_encodeResult (r : GatekeeperResult) :
    decodeResult (encodeResult r) = r := by
  obtain ⟨passed, error, timestamp⟩ := r
  cases error <;> simp [encodeResult, decodeResult, getKey]

theorem map_id_of_eq {α : Type} {f : α → α} (h : ∀ a, f a = a) :
    ∀ l : List α, l.map f = l := by
  intro l
  induction l with
  | nil => rfl
  | cons a rest ih => simp [h a, ih]

theorem decodeDeps_encodeDeps (ds : List String) :
    decodeDeps (encodeDeps ds) = ds := by
  simp only [encodeDeps, decodeDeps, List.map_map]
  exact map_id_of_eq (fun d => rfl) ds

theorem decodeStateFile_encodeStateFile (s : StateFile) :
    decodeStateFile (encodeStateFile s) = s := by
  obtain ⟨results, dependencies⟩ := s
  simp [encodeStateFile, decodeStateFile, getKey, List.map_map]
  constructor
  · exact map_id_of_eq
      (fun p => by
        obtain ⟨a, b⟩ := p
        simp [Function.comp, decodeResult_encodeResult]) results
  · exact map_id_of_eq
      (fun p => by
        obtain ⟨a, b⟩ := p
        simp [Function.comp, decodeDeps_encodeDeps]) dependencies

/-! ## Resolver: termination of the source recursion -/

theorem gfdAux_cons (state : StateFile) (fuel : Nat) (key : String)
    (rest visited : List String) :
    gfdAux state (fuel + 1) (key :: rest) visited =
      if key ∈ visited then gfdAux state fuel rest visited
      else if resultFailed state key then
        some (some ⟨key, failedError state key, [key]⟩, key :: visited)
      else
        let transitiveDeps := (getKey state.dependencies key).getD []
        if transitiveDeps.isEmpty then gfdAux state fuel rest (key :: visited)
        else
          match gfdAux state fuel transitiveDeps (key :: visited) with
          | none => none
          | some (some f, v2) => some (some ⟨f.key, f.error, key :: f.chain⟩, v2)
          | some (none, v2) => gfdAux state fuel rest v2 := rfl

theorem pendingWeight_cons_eq (k : String) (ds : List String)
    (rest : List (String × List String)) (visited : List String) :
    pendingWeight ((k, ds) :: rest) visited =
      (if k ∈ visited then 0 else ds.length + 1) + pendingWeight rest visited := rfl

theorem pendingWeight_mono (deps : List (String × List String))
    {v1 v2 : List String} (h : ∀ x, x ∈ v1 → x ∈ v2) :
    pendingWeight deps v2 ≤ pendingWeight deps v1 := by
  induction deps with
  | nil => simp [pendingWeight]
  | cons p rest ih =>
    obtain ⟨k, ds⟩ := p
    rw [pendingWeight_cons_eq, pendingWeight_cons_eq]
    have hhead : (if k ∈ v2 then 0 else ds.length + 1)
        ≤ (if k ∈ v1 then 0 else ds.length + 1) := by
      by_cases h1 : k ∈ v1
      · simp [h1, h k h1]
      · by_cases h2 : k ∈ v2 <;> simp [h1, h2]
    omega

theorem pendingWeight_drop (deps : List (String × List String)) {k : String}
    {d : List String} (visited : List String) (hk : k ∉ visited)
    (hget : getKey deps k = some d) :
    pendingWeight deps (k :: visited) + (d.length + 1) ≤
      pendingWeight deps visited := by
  induction deps with
  | nil => simp [getKey] at hget
  | cons p rest ih =>
    obtain ⟨k0, ds⟩ := p
    simp only [getKey] at hget
    by_cases h0 : k0 = k
    · subst h0
      rw [if_pos rfl] at hget
      injection hget with hd
      subst hd
      rw [pendingWeight_cons_eq, pendingWeight_cons_eq,
        if_pos (List.mem_cons_self k0 visited), if_neg hk]
      have := @pendingWeight_mono rest visited (k0 :: visited)
        (fun x hx => List.mem_cons_of_mem _ hx)
      omega
    · rw [if_neg h0] at hget
      have htail := ih hget
      rw [pendingWeight_cons_eq, pendingWeight_cons_eq]
      have hhead : (if k0 ∈ k :: visited then 0 else ds.length + 1)
          = (if k0 ∈ visited then 0 else ds.length + 1) := by
        simp [List.mem_cons, h0]
      omega

theorem gfdAux_visited_mono (state : StateFile) :
    ∀ (fuel : Nat) (keys visited : List String)
      (r : Option FailedDependencyInfo) (v2 : List String),
      gfdAux state fuel keys visited = some (r, v2) → ∀ x ∈ visited, x ∈ v2 := by
  intro fuel
  induction fuel with
  | zero =>
    intro keys visited r v2 h
    simp [gfdAux] at h
  | succ fuel ih =>
    intro keys visited r v2 h
    cases keys with
    | nil =>
      simp only [gfdAux, Option.some.injEq, Prod.mk.injEq] at h
      intro x hx
      exact h.2 ▸ hx
    | cons key rest =>
      rw [gfdAux_cons] at h
      by_cases hv : key ∈ visited
      · rw [if_pos hv] at h
        exact ih rest visited r v2 h
      · rw [if_neg hv] at h
        by_cases hf : resultFailed state key
        · rw [if_pos hf] at h
          simp only [Option.some.injEq, Prod.mk.injEq] at h
          intro x hx
          exact h.2 ▸ List.mem_cons_of_mem _ hx
        · rw [if_neg hf] at h
          cases hd : (getKey state.dependencies key).getD [] with
          | nil =>
            simp only [hd, List.isEmpty_nil, if_pos] at h
            intro x hx
            exact ih rest (key :: visited) r v2 h x (List.mem_cons_of_mem _ hx)
          | cons d0 ds =>
            simp only [hd, List.isEmpty_cons, Bool.false_eq_true, if_false] at h
            cases hres : gfdAux state fuel (d0 :: ds) (key :: visited) with
            | none => rw [hres] at h; simp at h
            | some p =>
              obtain ⟨rr, v'⟩ := p
              rw [hres] at h
              cases rr with
              | some f =>
                simp only [Option.some.injEq, Prod.mk.injEq] at h
                intro x hx
                exact h.2 ▸
                  ih (d0 :: ds) (key :: visited) (some f) v' hres x
                    (List.mem_cons_of_mem _ hx)
              | none =>
                intro x hx
                exact ih rest v' r v2 h x
                  (ih (d0 :: ds) (key :: visited) none v' hres x
                    (List.mem_cons_of_mem _ hx))

theorem gfdAux_ne_none (state : StateFile) :
    ∀ (fuel : Nat) (keys visited : List String),
      keys.length + pendingWeight state.dependencies visited < fuel →
      gfdAux state fuel keys visited ≠ none := by
  intro fuel
  induction fuel with
  | zero =>
    intro keys visited h
    omega
  | succ fuel ih =>
    intro keys visited h
    cases keys with
    | nil => simp [gfdAux]
    | cons key rest =>
      rw [gfdAux_cons]
      simp only [List.length_cons] at h
      by_cases hv : key ∈ visited
      · rw [if_pos hv]
        exact ih rest visited (by omega)
      · rw [if_neg hv]
        by_cases hf : resultFailed state key
        · rw [if_pos hf]; simp
        · rw [if_neg hf]
          have hmono := @pendingWeight_mono state.dependencies visited
            (key :: visited) (fun x hx => List.mem_cons_of_mem _ hx)
          cases hd : (getKey state.dependencies key).getD [] with
          | nil =>
            simp only [hd, List.isEmpty_nil, if_pos]
            exact ih rest (key :: visited) (by omega)
          | cons d0 ds =>
            simp only [hd, List.isEmpty_cons, Bool.false_eq_true, if_false]
            have hsome : getKey state.dependencies key = some (d0 :: ds) := by
              cases hg : getKey state.dependencies key with
              | none => rw [hg] at hd; simp at hd
              | some l => rw [hg] at hd; simpa using hd
            have hdrop := @pendingWeight_drop state.dependencies key
              (d0 :: ds) visited hv hsome
            have hdive := ih (d0 :: ds) (key :: visited)
              (by simp only [List.length_cons] at hdrop ⊢; omega)
            cases hres : gfdAux state fuel (d0 :: ds) (key :: visited) with
            | none => exact absurd hres hdive
            | some p =>
              obtain ⟨rr, v'⟩ := p
              cases rr with
              | some f => simp
              | none =>
                have hsub := gfdAux_visited_mono state fuel (d0 :: ds)
                  (key :: visited) none v' hres
                have hmono2 := @pendingWeight_mono state.dependencies
                  (key :: visited) v' hsub
                exact ih rest v' (by omega)

/-- With the fuel supplied by `getFailedDependency`, the recursion never
exhausts: this is the termination bound for the source's traversal. -/
theorem gfdAux_gfdFuel_ne_none (state : StateFile) (keys : List String) :
    gfdAux state (gfdFuel state keys) keys [] ≠ none := by
  apply gfdAux_ne_none
  unfold gfdFuel
  omega

theorem gfdAux_nil (state : StateFile) {fuel : Nat} (h : 0 < fuel)
    (visited : List String) :
    gfdAux state fuel [] visited = some (none, visited) := by
  cases fuel with
  | zero => omega
  | succ n => rfl

/-! ## Wait coordinator lemmas -/

theorem waitForResult_none_of_never (store : Nat → FileState) (key : String)
    (h : ∀ t, getResultAt store t key = none) :
    ∀ (polls t0 : Nat), waitForResult store key t0 polls = none := by
  intro polls
  induction polls with
  | zero => intro t0; rfl
  | succ n ih => intro t0; simp [waitForResult, h t0, ih]

theorem getKey_waitForResults_foldl (store : Nat → FileState) (polls : Nat) :
    ∀ (keys : List String) (acc : List (String × Option GatekeeperResult))
      (k : String),
      getKey
        (keys.foldl
          (fun acc key => setKey acc key (waitForResult store key 0 polls)) acc)
        k =
        if k ∈ keys then some (waitForResult store k 0 polls)
        else getKey acc k := by
  intro keys
  induction keys with
  | nil => intro acc k; simp
  | cons key rest ih =>
    intro acc k
    simp only [List.foldl_cons]
    rw [ih]
    by_cases hk : k ∈ rest
    · simp [hk, List.mem_cons]
    · by_cases he : k = key
      · subst he
        simp [hk, getKey_setKey_self]
      · simp [hk, he, getKey_setKey_ne _ _ he]

theorem waitForResults_foldl_keys_nodup (store : Nat → FileState)
    (polls : Nat) :
    ∀ (keys : List String) (acc : List (String × Option GatekeeperResult)),
      (acc.map Prod.fst).Nodup →
      (((keys.foldl
          (fun acc key => setKey acc key (waitForResult store key 0 polls))
          acc)).map Prod.fst).Nodup := by
  intro keys
  induction keys with
  | nil => intro acc h; simpa using h
  | cons key rest ih =>
    intro acc h
    simp only [List.foldl_cons]
    exact ih _ (setKey_keys_nodup acc key _ h)

/-! ## Linearized concurrent runs -/

theorem runSetResults_cons (state : StateFile)
    (op : String × Bool × Option String × Nat)
    (ops : List (String × Bool × Option String × Nat)) :
    runSetResults state (op :: ops) =
      runSetResults (setResult state op.1 op.2.1 op.2.2.1 op.2.2.2) ops := rfl

theorem runSetResults_getResult_of_not_mem
    (ops : List (String × Bool × Option String × Nat)) :
    ∀ (state : StateFile) (k : String), (∀ op ∈ ops, op.1 ≠ k) →
      getResult (runSetResults state ops) k = getResult state k := by
  induction ops with
  | nil => intro state k _; rfl
  | cons op rest ih =>
    intro state k h
    rw [runSetResults_cons,
      ih _ k (fun op' hop' => h op' (List.mem_cons_of_mem _ hop'))]
    exact getKey_setKey_ne state.results _
      (fun he => h op (List.mem_cons_self _ _) he.symm)

theorem runSetResults_length
    (ops : List (String × Bool × Option String × Nat)) :
    ∀ (state : StateFile), (ops.map Prod.fst).Nodup →
      (∀ op ∈ ops, getResult state op.1 = none) →
      (runSetResults state ops).results.length =
        state.results.length + ops.length := by
  induction ops with
  | nil => intro state _ _; simp [runSetResults]
  | cons op rest ih =>
    intro state hnd hdisj
    simp only [List.map_cons, List.nodup_cons] at hnd
    rw [runSetResults_cons]
    have hfresh : getResult state op.1 = none :=
      hdisj op (List.mem_cons_self _ _)
    have hlen : (setResult state op.1 op.2.1 op.2.2.1 op.2.2.2).results.length
        = state.results.length + 1 :=
      setKey_length_of_getKey_none state.results _ hfresh
    have hdisj2 : ∀ op' ∈ rest,
        getResult (setResult state op.1 op.2.1 op.2.2.1 op.2.2.2) op'.1 = none := by
      intro op' hop'
      have hne : op'.1 ≠ op.1 := by
        intro hc
        exact hnd.1 (hc ▸ List.mem_map_of_mem Prod.fst hop')
      rw [show getResult (setResult state op.1 op.2.1 op.2.2.1 op.2.2.2) op'.1
          = getKey (setKey state.results op.1 _) op'.1 from rfl,
        getKey_setKey_ne state.results _ hne]
      exact hdisj op' (List.mem_cons_of_mem _ hop')
    rw [ih _ hnd.2 hdisj2, hlen]
    simp [Nat.add_assoc, Nat.add_comm 1]

theorem runSetResults_getResult
    (ops : List (String × Bool × Option String × Nat)) :
    ∀ (state : StateFile), (ops.map Prod.fst).Nodup →
      ∀ op ∈ ops, getResult (runSetResults state ops) op.1 =
        some ⟨op.2.1, op.2.2.1, op.2.2.2⟩ := by
  induction ops with
  | nil =>
    intro state _ op hop
    simp at hop
  | cons op0 rest ih =>
    intro state hnd op hop
    simp only [List.map_cons, List.nodup_cons] at hnd
    rw [runSetResults_cons]
    rcases List.mem_cons.mp hop with he | hm
    · subst he
      rw [runSetResults_getResult_of_not_mem rest _ op.1
        (fun op' hop' hc => hnd.1 (hc ▸ List.mem_map_of_mem Prod.fst hop'))]
      exact getKey_setKey_self state.results op.1 _
    · exact ih _ hnd.2 op hm

/-! ## Claim theorems -/

/-- C1: `getFailedDependency` is a depth-first traversal visiting the
supplied keys in order: a visited key with a recorded failed result
returns `{key, error, chain: [key]}` immediately; otherwise declared
dependencies are recursed into and a failure found there is returned with
the current key prepended to the chain; an exhausted traversal returns
`null`; and for `dependencies {B: ["A"]}` with `A` recorded failed and `B`
absent, `getFailedDependency(["B"])` is `{key: "A", chain: ["B", "A"]}`. -/
theorem getFailedDependency_dfs :
    (∀ (state : StateFile) (fuel : Nat) (key : String)
        (rest visited : List String) (r : GatekeeperResult),
        key ∉ visited → getKey state.results key = some r → r.passed = false →
        gfdAux state (fuel + 1) (key :: rest) visited =
          some (some ⟨key, r.error, [key]⟩, key :: visited)) ∧
    (∀ (state : StateFile) (fuel : Nat) (key : String)
        (rest visited d : List String) (f : FailedDependencyInfo)
        (v2 : List String),
        key ∉ visited → resultFailed state key = false →
        getKey state.dependencies key = some d → d ≠ [] →
        gfdAux state fuel d (key :: visited) = some (some f, v2) →
        gfdAux state (fuel + 1) (key :: rest) visited =
          some (some ⟨f.key, f.error, key :: f.chain⟩, v2)) ∧
    (∀ state : StateFile, getFailedDependency state [] = none) ∧
    getFailedDependency
        ⟨[("A", ⟨false, some "boom", 5⟩)], [("B", ["A"])]⟩ ["B"] =
      some ⟨"A", some "boom", ["B", "A"]⟩ := by
  refine ⟨?_, ?_, ?_, by decide⟩
  · intro state fuel key rest visited r hv hres hpass
    have hf : resultFailed state key = true := by
      simp [resultFailed, hres, hpass]
    have he : failedError state key = r.error := by
      simp [failedError, hres]
    rw [gfdAux_cons, if_neg hv, if_pos hf, he]
  · intro state fuel key rest visited d f v2 hv hf hdeps hdne hdive
    rw [gfdAux_cons, if_neg hv, if_neg (by simp [hf])]
    cases d with
    | nil => exact absurd rfl hdne
    | cons d0 ds =>
      simp only [hdeps, Option.getD_some, List.isEmpty_cons,
        Bool.false_eq_true, if_false, hdive]
  · intro state
    simp only [getFailedDependency]
    rw [gfdAux_nil state (by unfold gfdFuel; omega) []]

theorem getFailedDependency_dfs_witness :
    gfdAux ⟨[("A", ⟨false, some "boom", 5⟩)], [("B", ["A"])]⟩ 1
        ["A"] ["B"] =
      some (some ⟨"A", some "boom", ["A"]⟩, ["A", "B"]) ∧
    gfdAux ⟨[("A", ⟨false, some "boom", 5⟩)], [("B", ["A"])]⟩ 2
        ["B"] [] =
      some (some ⟨"A", some "boom", ["B", "A"]⟩, ["A", "B"]) :=
  ⟨getFailedDependency_dfs.1 _ 0 "A" [] ["B"] ⟨false, some "boom", 5⟩
      (by decide) (by decide) rfl,
   getFailedDependency_dfs.2.1 _ 1 "B" [] [] ["A"]
      ⟨"A", some "boom", ["A"]⟩ ["A", "B"]
      (by decide) (by decide) (by decide) (by decide) (by decide)⟩

/-- C2: the traversal terminates on every input, cyclic graphs included:
the fuel `getFailedDependency` runs with is always sufficient (the shared
visited set bounds the recursion), an already-visited key is skipped
rather than re-expanded, and for `dependencies {X: ["Y"], Y: ["X"]}` with
no results, `getFailedDependency(["X"])` returns `null`. -/
theorem getFailedDependency_terminates :
    (∀ (state : StateFile) (keys : List String),
        gfdAux state (gfdFuel state keys) keys [] ≠ none) ∧
    (∀ (state : StateFile) (fuel : Nat) (key : String)
        (rest visited : List String), key ∈ visited →
        gfdAux state (fuel + 1) (key :: rest) visited =
          gfdAux state fuel rest visited) ∧
    getFailedDependency ⟨[], [("X", ["Y"]), ("Y", ["X"])]⟩ ["X"] = none := by
  refine ⟨gfdAux_gfdFuel_ne_none, ?_, by decide⟩
  intro state fuel key rest visited hv
  rw [gfdAux_cons, if_pos hv]

theorem getFailedDependency_terminates_witness :
    gfdAux ⟨[], [("X", ["Y"]), ("Y", ["X"])]⟩
        (gfdFuel ⟨[], [("X", ["Y"]), ("Y", ["X"])]⟩ ["X"]) ["X"] [] ≠ none ∧
    gfdAux emptyState 1 ["X"] ["X"] = gfdAux emptyState 0 [] ["X"] :=
  ⟨getFailedDependency_terminates.1 _ _,
   getFailedDependency_terminates.2.1 emptyState 0 "X" [] ["X"] (by decide)⟩

/-- C3: when `markAs(key, dependencies)` is called with a non-empty
dependency list and resolution against the current snapshot finds a
failure, the calling test is skipped with a message naming the failed key,
the snapshot is unchanged (no dependency edges persisted), and the
current-gatekeeper ownership is not taken, so no result will later be
recorded for `key`. -/
theorem markAs_skips_on_failed_dependency (state : StateFile)
    (curKey : Option String) (key : String) (dependencies : List String)
    (f : FailedDependencyInfo) (hne : dependencies ≠ [])
    (hf : getFailedDependency state dependencies = some f) :
    markAs state curKey key dependencies =
      (.skipped ("Skipped: dependency '" ++ f.key ++ "' failed"
          ++ formatDependencyChain f.chain),
       state, curKey) := by
  have hlen : dependencies.length > 0 := List.length_pos.mpr hne
  simp [markAs, hlen, hf]

theorem markAs_skips_on_failed_dependency_witness :
    markAs ⟨[("A", ⟨false, none, 1⟩)], []⟩ none "auth" ["A"] =
      (.skipped "Skipped: dependency 'A' failed",
       ⟨[("A", ⟨false, none, 1⟩)], []⟩, none) :=
  markAs_skips_on_failed_dependency _ none "auth" ["A"] ⟨"A", none, ["A"]⟩
    (by decide) (by decide)

/-- C4: `waitForResults(keys, timeout)` returns a map with exactly one
entry per requested key (requested keys map to the per-key wait outcome,
unrequested keys are absent from the map, and the map's keys are
duplicate-free), and a key whose result never appears within the timeout
window maps to absent (`undefined`) rather than raising an error. -/
theorem waitForResults_complete (store : Nat → FileState)
    (keys : List String) (polls : Nat) :
    (∀ k, k ∈ keys →
        getKey (waitForResults store keys polls) k =
          some (waitForResult store k 0 polls)) ∧
    (∀ k, k ∉ keys → getKey (waitForResults store keys polls) k = none) ∧
    ((waitForResults store keys polls).map Prod.fst).Nodup ∧
    (∀ k, k ∈ keys → (∀ t, getResultAt store t k = none) →
        getKey (waitForResults store keys polls) k = some none) := by
  refine ⟨?_, ?_, ?_, ?_⟩
  · intro k hk
    simp only [waitForResults]
    rw [getKey_waitForResults_foldl store polls keys [] k, if_pos hk]
  · intro k hk
    simp only [waitForResults]
    rw [getKey_waitForResults_foldl store polls keys [] k, if_neg hk]
    rfl
  · exact waitForResults_foldl_keys_nodup store polls keys [] (by simp)
  · intro k hk hnever
    simp only [waitForResults]
    rw [getKey_waitForResults_foldl store polls keys [] k, if_pos hk,
      waitForResult_none_of_never store k hnever polls 0]

theorem waitForResults_complete_witness :
    getKey (waitForResults (fun _ => FileState.absent) ["Z"] 1) "Z" =
      some none ∧
    getKey (waitForResults (fun _ => FileState.absent) ["Z"] 1) "Q" = none :=
  ⟨(waitForResults_complete (fun _ => FileState.absent) ["Z"] 1).2.2.2 "Z"
      (by decide) (fun _ => rfl),
   (waitForResults_complete (fun _ => FileState.absent) ["Z"] 1).2.1 "Q"
      (by decide)⟩

/-- C5: for every snapshot, `writeState` followed by `readState` yields a
snapshot equal to the one written: both the `results` map and the
`dependencies` map are preserved key-for-key and value-for-value through
serialization and deserialization. -/
theorem writeState_readState_roundtrip (s : StateFile) :
    readState (writeState s) = s ∧
    (∀ k, getKey (readState (writeState s)).results k = getKey s.results k) ∧
    (∀ k, getKey (readState (writeState s)).dependencies k =
        getKey s.dependencies k) := by
  have h : readState (writeState s) = s := decodeStateFile_encodeStateFile s
  exact ⟨h, fun k => by rw [h], fun k => by rw [h]⟩

/-- C6: `readState` never fails: an absent durable file and a file whose
content fails to parse both yield the empty snapshot
`{results: {}, dependencies: {}}` rather than an error. -/
theorem readState_recovers_empty :
    readState .absent = emptyState ∧ readState .corrupt = emptyState :=
  ⟨rfl, rfl⟩

/-- C7: if the lock sentinel cannot be created within the acquisition
timeout (every exclusive-create attempt fails), both mutating operations
throw `Failed to acquire lock for gatekeeper state` and leave the
persisted snapshot unchanged: the read-modify-write cycle never begins. -/
theorem lock_timeout_aborts (attempts : List Bool) (fs : FileState)
    (key : String) (dependencies : List String) (passed : Bool)
    (error : Option String) (now : Nat)
    (h : ∀ a ∈ attempts, a = false) :
    registerGatekeeperOp attempts fs key dependencies =
      (some "Failed to acquire lock for gatekeeper state", fs) ∧
    setResultOp attempts fs key passed error now =
      (some "Failed to acquire lock for gatekeeper state", fs) := by
  have hacq : acquireLock attempts = false := by
    simp only [acquireLock, List.any_eq_false]
    intro a ha
    simp [h a ha]
  constructor <;>
    simp [registerGatekeeperOp, setResultOp, withLock, hacq]

theorem lock_timeout_aborts_witness :
    setResultOp [false] .absent "auth" true none 7 =
      (some "Failed to acquire lock for gatekeeper state", .absent) :=
  (lock_timeout_aborts [false] .absent "auth" [] true none 7
    (by decide)).2

/-- C8: calling `setResult(key, p2, e2)` when a result for `key` is
already recorded raises no duplicate-registration error (under an acquired
lock the operation reports no error) and silently overwrites: afterwards
`getResult(key)` carries `p2` and `e2`, while every other key's result is
unchanged. -/
theorem setResult_overwrites (state : StateFile) (key : String)
    (r0 : GatekeeperResult) (p2 : Bool) (e2 : Option String) (now : Nat)
    (h : getResult state key = some r0) :
    getResult (setResult state key p2 e2 now) key = some ⟨p2, e2, now⟩ ∧
    (∀ k, k ≠ key →
        getResult (setResult state key p2 e2 now) k = getResult state k) ∧
    (∀ attempts fs, acquireLock attempts = true →
        (setResultOp attempts fs key p2 e2 now).1 = none) := by
  refine ⟨?_, ?_, ?_⟩
  · exact getKey_setKey_self state.results key _
  · intro k hk
    exact getKey_setKey_ne state.results _ hk
  · intro attempts fs ha
    simp [setResultOp, withLock, ha]

theorem setResult_overwrites_witness :
    getResult
        (setResult ⟨[("auth", ⟨true, none, 1⟩)], []⟩ "auth" false
          (some "e2") 9) "auth" =
      some ⟨false, some "e2", 9⟩ ∧
    getResult
        (setResult ⟨[("auth", ⟨true, none, 1⟩)], []⟩ "auth" false
          (some "e2") 9) "other" =
      getResult ⟨[("auth", ⟨true, none, 1⟩)], []⟩ "other" :=
  ⟨(setResult_overwrites _ "auth" ⟨true, none, 1⟩ false (some "e2") 9
      (by decide)).1,
   (setResult_overwrites _ "auth" ⟨true, none, 1⟩ false (some "e2") 9
      (by decide)).2.1 "other" (by decide)⟩

/-- C9: N `setResult` calls for N distinct keys, linearized by the lock
into an arbitrary commit order, all persist: afterwards `getAllResults`
holds exactly N entries, and each key maps to the result its call
recorded — no lost updates. -/
theorem concurrent_setResults_persist
    (ops : List (String × Bool × Option String × Nat))
    (h : (ops.map Prod.fst).Nodup) :
    (getAllResults (runSetResults emptyState ops)).length = ops.length ∧
    ∀ op ∈ ops, getResult (runSetResults emptyState ops) op.1 =
      some ⟨op.2.1, op.2.2.1, op.2.2.2⟩ := by
  constructor
  · have := runSetResults_length ops emptyState h (fun op _ => rfl)
    simpa [getAllResults, emptyState] using this
  · exact runSetResults_getResult ops emptyState h

theorem concurrent_setResults_persist_witness :
    (getAllResults (runSetResults emptyState
        [("k1", true, none, 1), ("k2", false, some "e", 2)])).length = 2 ∧
    getResult (runSetResults emptyState
        [("k1", true, none, 1), ("k2", false, some "e", 2)]) "k2" =
      some ⟨false, some "e", 2⟩ :=
  ⟨(concurrent_setResults_persist
      [("k1", true, none, 1), ("k2", false, some "e", 2)] (by decide)).1,
   (concurrent_setResults_persist
      [("k1", true, none, 1), ("k2", false, some "e", 2)] (by decide)).2
      ("k2", false, some "e", 2) (by decide)⟩

/-- C10: `registerGatekeeper(key, [])` writes back exactly the snapshot it
read (no entry added under `dependencies` or `results`); if `key` was not
yet in the store, `isRegistered(key)` is still `false` afterwards and
`getDependencies(key)` is `[]`; the key first appears once `setResult`
records its result. -/
theorem registerGatekeeper_empty_deps (state : StateFile) (key : String) :
    registerGatekeeper state key [] = state ∧
    (isRegistered state key = false →
      isRegistered (registerGatekeeper state key []) key = false ∧
      getDependencies (registerGatekeeper state key []) key = []) ∧
    (∀ passed error now,
      isRegistered (setResult state key passed error now) key = true) := by
  have h0 : registerGatekeeper state key [] = state := rfl
  refine ⟨h0, ?_, ?_⟩
  · intro h
    rw [h0]
    refine ⟨h, ?_⟩
    simp only [isRegistered, Bool.or_eq_false_iff] at h
    cases hg : getKey state.dependencies key with
    | none => simp [getDependencies, hg]
    | some l => rw [hg] at h; simp at h
  · intro passed error now
    simp [isRegistered, setResult, getKey_setKey_self]

theorem registerGatekeeper_empty_deps_witness :
    isRegistered (registerGatekeeper emptyState "k" []) "k" = false ∧
    getDependencies (registerGatekeeper emptyState "k" []) "k" = [] :=
  (registerGatekeeper_empty_deps emptyState "k").2.1 (by decide)

end Gatekeeper
